import Mathlib

/-!
Verification of the gmqb query-to-code translator (package `generator`).

The translator consumes a decoded MongoDB extended-JSON value (a `bson.D`
document or `bson.A` array in the Go source) and emits Go source text that
calls the gmqb fluent builder API.  This file gives a shallow embedding of
the translator: decoded BSON values become the inductive type `Value`,
`bson.D` becomes `List (String × Value)`, Go's `(string, error)` returns
become `Except String String`, and each Go function
(`formatValue`, `formatValues`, `formatExpressionValue`,
`translateExpression`, `translateOperator`, `translateElement`,
`translateLogicalOp`, `translateDoc`, `translatePipelineStage`,
`translatePipeline`, `getInt64`, `getMapValue`, `getMapString`) is
translated definition-by-definition from
`generator/generate.go`, `generator/translate.go` and
`generator/translate_expr.go`.
-/

namespace Gmqb

/-- Decoded extended-JSON/BSON value (`interface\x7b\x7d` values inside `bson.D` /
`bson.A` as produced by `bson.UnmarshalExtJSON`).  A JSON `null` decodes to a
nil interface in Go, modelled by `Value.null`.  `float64` values are modelled
by their integer value: every input exercised here carries doubles of small
integral magnitude, for which Go's `%v` rendering and `int64` truncation
coincide with the integer's decimal rendering and identity.  `dateTime`
models `bson.DateTime` (an `int64`-backed type), representative of the
specialized kinds that reach `formatValue`'s default branch. -/
inductive Value where
  | null
  | bool (b : Bool)
  | int32 (n : Int)
  | int64 (n : Int)
  | float64 (f : Int)
  | str (s : String)
  | arr (elems : List Value)
  | doc (elems : List (String × Value))
  | objectID (hex : String)
  | regex (pattern options : String)
  | dateTime (millis : Int)

/-- Rendering of one character inside a Go `%q` double-quoted literal.
Covers the escapes arising in this development (quote, backslash and the
common control characters); other printable characters pass through
unchanged, as in Go. -/
def goEscapeChar (c : Char) : String :=
  if c = '\\' then "\\\\"
  else if c = '"' then "\\\""
  else if c = '\n' then "\\n"
  else if c = '\t' then "\\t"
  else if c = '\r' then "\\r"
  else String.singleton c

/-- Go's `%q` verb on a string: a double-quoted Go string literal. -/
def goQuote (s : String) : String :=
  "\"" ++ String.join (s.data.map goEscapeChar) ++ "\""

/-- Go's `%T` verb on a decoded value (the dynamic type name), used in the
translator's error messages. -/
def goTypeName : Value → String
  | .null => "<nil>"
  | .bool _ => "bool"
  | .int32 _ => "int32"
  | .int64 _ => "int64"
  | .float64 _ => "float64"
  | .str _ => "string"
  | .arr _ => "bson.A"
  | .doc _ => "bson.D"
  | .objectID _ => "bson.ObjectID"
  | .regex _ _ => "bson.Regex"
  | .dateTime _ => "bson.DateTime"

/-- Source `getMapValue` (translate_expr.go): first value stored under `key`,
or Go `nil` (here `Value.null`) when absent. -/
def getMapValue : List (String × Value) → String → Value
  | [], _ => .null
  | (k, v) :: rest, key => if k = key then v else getMapValue rest key

/-- Source `getMapString` (translate.go): first *string* value stored under
`key`; a match whose value is not a string is skipped, and `""` is returned
when nothing matches. -/
def getMapString : List (String × Value) → String → String
  | [], _ => ""
  | (k, v) :: rest, key =>
    if k = key then
      match v with
      | .str s => s
      | _ => getMapString rest key
    else getMapString rest key

/-- Source `getInt64` (translate.go): numeric coercion used by `$limit` and
`$skip`.  `int32` and `int64` pass through, `float64` is truncated by Go's
`int64(v)` (the identity on the integral doubles modelled here), and every
other dynamic type silently yields `0`. -/
def getInt64 : Value → Int
  | .int32 n => n
  | .int64 n => n
  | .float64 f => f
  | _ => 0

mutual

/-- Source `formatValue` (translate.go): renders a decoded value as Go
source-literal text.  The `default` branch of the Go type switch is
`fmt.Sprintf("%#v", v)`: on a nil interface (decoded JSON null) `%#v`
prints `<nil>`, and on the `int64`-backed `bson.DateTime` it prints the
decimal digits. -/
def formatValue : Value → String
  | .str s => goQuote s
  | .int32 n => toString n
  | .int64 n => toString n
  | .float64 f => toString f
  | .bool b => if b then "true" else "false"
  | .arr elems => "bson.A\x7b" ++ String.intercalate ", " (formatValueList elems) ++ "\x7d"
  | .doc elems => "bson.D\x7b" ++ String.intercalate ", " (formatValueDoc elems) ++ "\x7d"
  | .objectID hex =>
      "func() bson.ObjectID \x7b id, _ := bson.ObjectIDFromHex(" ++ goQuote hex ++
        "); return id \x7d()"
  | .regex pattern _ => goQuote pattern
  | .null => "<nil>"
  | .dateTime millis => toString millis
termination_by v => sizeOf v

/-- The element loop of `formatValue`'s `bson.A` case. -/
def formatValueList : List Value → List String
  | [] => []
  | v :: rest => formatValue v :: formatValueList rest
termination_by l => sizeOf l

/-- The element loop of `formatValue`'s `bson.D` case: each pair is rendered
`\x7b%q, %s\x7d`. -/
def formatValueDoc : List (String × Value) → List String
  | [] => []
  | (k, v) :: rest =>
      ("\x7b" ++ goQuote k ++ ", " ++ formatValue v ++ "\x7d") :: formatValueDoc rest
termination_by l => sizeOf l

end

/-- Source `formatValues` (translate.go): variadic-argument formatting used
by `$in`, `$nin` and `$all`.  An array formats each element and joins with
`", "`; any non-array value silently falls back to `formatValue`. -/
def formatValues (val : Value) : String :=
  match val with
  | .arr items => String.intercalate ", " (formatValueList items)
  | _ => formatValue val

/-! Expression translator (translate_expr.go).  The Go source computes each
builder-function name as `"Expr" + strings.ToUpper(op[1:2]) + op[2:]` and
then overrides a handful of cases; all operators are ASCII, so the byte
slices coincide with character positions. -/

/-- Go's `strings.HasPrefix`, written on the character lists so that it
evaluates by kernel reduction (equivalent to `String.startsWith` on these
ASCII operator names). -/
def goHasPfx (s p : String) : Bool :=
  p.data.isPrefixOf s.data

/-- The generic name computation `strings.ToUpper(op[1:2]) + op[2:]`: the
operator's second character uppercased, followed by the rest.  Written on
the character list so that it evaluates by kernel reduction; every operator
name reaching it has at least two characters (Go would panic otherwise). -/
def opTail (op : String) : String :=
  match op.data with
  | [] => ""
  | [_] => ""
  | _ :: c :: rest => String.mk (c.toUpper :: rest)

/-- Builder-function name for a unary expression operator, with the source's
special cases (all but the `$to…` `Id → ID` rewrite coincide with the
generic computation). -/
def unaryFuncName (op : String) : String :=
  if op = "$strLenCP" then "ExprStrLenCP"
  else if op = "$isArray" then "ExprIsArray"
  else if op = "$objectToArray" then "ExprObjectToArray"
  else if op = "$arrayToObject" then "ExprArrayToObject"
  else if goHasPfx op "$to" then String.replace ("Expr" ++ opTail op) "Id" "ID"
  else "Expr" ++ opTail op

/-- Builder-function name for a two-argument expression operator, with the
source's (identity) special cases. -/
def binFuncName (op : String) : String :=
  if op = "$arrayElemAt" then "ExprArrayElemAt"
  else if op = "$setDifference" then "ExprSetDifference"
  else if op = "$setIsSubset" then "ExprSetIsSubset"
  else if op = "$indexOfArray" then "ExprIndexOfArray"
  else "Expr" ++ opTail op

/-- Builder-function name for a variadic expression operator, with the
source's (identity) special cases. -/
def varFuncName (op : String) : String :=
  if op = "$concatArrays" then "ExprConcatArrays"
  else if op = "$setEquals" then "ExprSetEquals"
  else if op = "$setIntersection" then "ExprSetIntersection"
  else if op = "$setUnion" then "ExprSetUnion"
  else if op = "$anyElementTrue" then "ExprAnyElementTrue"
  else if op = "$allElementsTrue" then "ExprAllElementsTrue"
  else if op = "$mergeObjects" then "ExprMergeObjects"
  else "Expr" ++ opTail op

/-- The 1-argument expression operators of the source's first `case` list. -/
def unaryOps : List String :=
  ["$abs", "$ceil", "$floor", "$sqrt", "$ln", "$type", "$isArray", "$toLower", "$toUpper",
   "$strLenCP", "$year", "$month", "$dayOfMonth", "$hour", "$minute", "$second", "$millisecond",
   "$dayOfYear", "$dayOfWeek", "$isoWeek", "$isoWeekYear", "$toDate", "$toDecimal", "$toDouble",
   "$toInt", "$toLong", "$toObjectId", "$toString", "$toBool", "$not", "$reverseArray",
   "$objectToArray", "$arrayToObject"]

/-- The accumulator operators of the source's second `case` list. -/
def accOps : List String :=
  ["$sum", "$avg", "$min", "$max", "$first", "$last", "$push", "$addToSet",
   "$stdDevPop", "$stdDevSamp", "$count"]

/-- The 2-argument array expression operators of the source's third `case`
list. -/
def binOps : List String :=
  ["$subtract", "$divide", "$mod", "$pow", "$log", "$cmp", "$eq", "$ne", "$gt", "$gte",
   "$lt", "$lte", "$split", "$arrayElemAt", "$setDifference", "$setIsSubset", "$in",
   "$indexOfArray"]

/-- The variadic array expression operators of the source's fourth `case`
list. -/
def varOps : List String :=
  ["$add", "$multiply", "$concat", "$concatArrays", "$setEquals", "$setIntersection",
   "$setUnion", "$anyElementTrue", "$allElementsTrue", "$mergeObjects", "$zip", "$or", "$and"]

/-- The structured (named-field) expression operators handled by the
remaining `case` arms of `translateExpression`. -/
def structuredOps : List String :=
  ["$filter", "$map", "$reduce", "$let", "$regexMatch", "$regexFind", "$regexFindAll",
   "$replaceOne", "$replaceAll", "$trim", "$ltrim", "$rtrim", "$cond", "$switch"]

/-- A value extracted from a document is no larger than the document, so the
structured-operator recursion of `translateExpression` terminates. -/
theorem sizeOf_getMapValue_le (d : List (String × Value)) (k : String) :
    sizeOf (getMapValue d k) ≤ sizeOf d := by
  induction d with
  | nil => simp [getMapValue]
  | cons e rest ih =>
    obtain ⟨ek, ev⟩ := e
    simp only [getMapValue]
    split
    · simp
      omega
    · simp
      omega

/-- Apply-friendly form of `sizeOf_getMapValue_le` for the termination
proofs below. -/
theorem getMapValue_sizeOf_lt (d : List (String × Value)) (k : String) (n : Nat)
    (h : sizeOf d < n) : sizeOf (getMapValue d k) < n :=
  lt_of_le_of_lt (sizeOf_getMapValue_le d k) h

/-- The raw key/value fallback `bson.D\x7b\x7b%q, %s\x7d\x7d` used by
`translateExpression` for malformed fixed-arity values and unrecognized
operators. -/
def exprRawPair (op : String) (body : String) : String :=
  "bson.D\x7b\x7b" ++ goQuote op ++ ", " ++ body ++ "\x7d\x7d"

/-- The 2-argument array case of `translateExpression`: the value must be a
2-element array, and both elements are rendered with the *literal*
`formatValue` (not recursive expression translation); any other shape
degrades to the raw key/value fallback. -/
def exprBinaryFragment (op : String) (val : Value) : String :=
  match val with
  | .arr [a, b] =>
    "gmqb." ++ binFuncName op ++ "(" ++ formatValue a ++ ", " ++ formatValue b ++ ")"
  | w => exprRawPair op (formatValue w)

mutual

/-- Source `translateExpression` (translate_expr.go): translates a single
aggregation-expression document `[(op, val)]`.  Only the arity check at the
top can fail; every dispatch branch — including malformed fixed-arity
values and unrecognized operators — returns a fragment.  The structured
(`$filter` … `$switch`) case arms are delegated to
`exprStructuredFragment`, whose `none` result models Go's fall-through from
those arms to the final native fallback. -/
def translateExpression (doc : List (String × Value)) : Except String String :=
  match doc with
  | [] => .error "expression document must have exactly one field, got 0"
  | [(op, val)] =>
    if op ∈ unaryOps then
      .ok ("gmqb." ++ unaryFuncName op ++ "(" ++ formatExpressionValue val ++ ")")
    else if op ∈ accOps then
      if op = "$count" then .ok "gmqb.AccCount()"
      else .ok ("gmqb.Acc" ++ opTail op ++ "(" ++ formatExpressionValue val ++ ")")
    else if op ∈ binOps then .ok (exprBinaryFragment op val)
    else if op ∈ varOps then
      match val with
      | .arr items =>
        .ok ("gmqb." ++ varFuncName op ++ "(" ++
          String.intercalate ", " (formatExprList items) ++ ")")
      | w => .ok (exprRawPair op (formatValue w))
    else
      match exprStructuredFragment op val with
      | some s => .ok s
      | none => .ok (exprRawPair op (formatExpressionValue val))
  | e1 :: e2 :: rest =>
    .error ("expression document must have exactly one field, got " ++
      toString (e1 :: e2 :: rest).length)
termination_by (sizeOf doc, 0)
decreasing_by
  all_goals simp_wf
  all_goals
    first
    | omega
    | (apply Prod.Lex.right; omega)
    | (apply getMapValue_sizeOf_lt; omega)
    | (apply Prod.Lex.left
       first
       | omega
       | (apply getMapValue_sizeOf_lt; omega))

/-- Dispatcher over the structured (named-field) expression case arms.
`none` means the arm's shape test failed (or the operator is outside the
closed set), which in the Go source falls through to the native fallback. -/
def exprStructuredFragment (op : String) (val : Value) : Option String :=
  if op = "$filter" then exprFilterFragment val
  else if op = "$map" then exprMapFragment val
  else if op = "$reduce" then exprReduceFragment val
  else if op = "$let" then exprLetFragment val
  else if op = "$regexMatch" ∨ op = "$regexFind" ∨ op = "$regexFindAll" then
    exprRegexFragment op val
  else if op = "$replaceOne" ∨ op = "$replaceAll" then exprReplaceFragment op val
  else if op = "$trim" ∨ op = "$ltrim" ∨ op = "$rtrim" then exprTrimFragment op val
  else if op = "$cond" then exprCondFragment val
  else if op = "$switch" then exprSwitchFragment val
  else none
termination_by (sizeOf val, 1)
decreasing_by
  all_goals simp_wf
  all_goals
    first
    | omega
    | (apply Prod.Lex.right; omega)
    | (apply getMapValue_sizeOf_lt; omega)
    | (apply Prod.Lex.left
       first
       | omega
       | (apply getMapValue_sizeOf_lt; omega))

/-- The `$filter` case arm: extracts `input`/`as`/`cond`. -/
def exprFilterFragment (val : Value) : Option String :=
  match val with
  | .doc d =>
    some ("gmqb.ExprFilter(" ++ formatExpressionValue (getMapValue d "input") ++ ", " ++
      goQuote (getMapString d "as") ++ ", " ++
      formatExpressionValue (getMapValue d "cond") ++ ")")
  | _ => none
termination_by (sizeOf val, 0)
decreasing_by
  all_goals simp_wf
  all_goals
    first
    | omega
    | (apply Prod.Lex.right; omega)
    | (apply getMapValue_sizeOf_lt; omega)
    | (apply Prod.Lex.left
       first
       | omega
       | (apply getMapValue_sizeOf_lt; omega))

/-- The `$map` case arm: extracts `input`/`as`/`in`. -/
def exprMapFragment (val : Value) : Option String :=
  match val with
  | .doc d =>
    some ("gmqb.ExprMap(" ++ formatExpressionValue (getMapValue d "input") ++ ", " ++
      goQuote (getMapString d "as") ++ ", " ++
      formatExpressionValue (getMapValue d "in") ++ ")")
  | _ => none
termination_by (sizeOf val, 0)
decreasing_by
  all_goals simp_wf
  all_goals
    first
    | omega
    | (apply Prod.Lex.right; omega)
    | (apply getMapValue_sizeOf_lt; omega)
    | (apply Prod.Lex.left
       first
       | omega
       | (apply getMapValue_sizeOf_lt; omega))

/-- The `$reduce` case arm: extracts `input`/`initialValue`/`in`. -/
def exprReduceFragment (val : Value) : Option String :=
  match val with
  | .doc d =>
    some ("gmqb.ExprReduce(" ++ formatExpressionValue (getMapValue d "input") ++ ", " ++
      formatExpressionValue (getMapValue d "initialValue") ++ ", " ++
      formatExpressionValue (getMapValue d "in") ++ ")")
  | _ => none
termination_by (sizeOf val, 0)
decreasing_by
  all_goals simp_wf
  all_goals
    first
    | omega
    | (apply Prod.Lex.right; omega)
    | (apply getMapValue_sizeOf_lt; omega)
    | (apply Prod.Lex.left
       first
       | omega
       | (apply getMapValue_sizeOf_lt; omega))

/-- The `$let` case arm: extracts `vars`/`in`. -/
def exprLetFragment (val : Value) : Option String :=
  match val with
  | .doc d =>
    some ("gmqb.ExprLet(" ++ formatExpressionValue (getMapValue d "vars") ++ ", " ++
      formatExpressionValue (getMapValue d "in") ++ ")")
  | _ => none
termination_by (sizeOf val, 0)
decreasing_by
  all_goals simp_wf
  all_goals
    first
    | omega
    | (apply Prod.Lex.right; omega)
    | (apply getMapValue_sizeOf_lt; omega)
    | (apply Prod.Lex.left
       first
       | omega
       | (apply getMapValue_sizeOf_lt; omega))

/-- The `$regexMatch`/`$regexFind`/`$regexFindAll` case arm. -/
def exprRegexFragment (op : String) (val : Value) : Option String :=
  match val with
  | .doc d =>
    some ("gmqb." ++
      (if op = "$regexFind" then "ExprRegexFind"
       else if op = "$regexFindAll" then "ExprRegexFindAll"
       else "ExprRegexMatch") ++
      "(" ++ formatExpressionValue (getMapValue d "input") ++ ", " ++
      goQuote (getMapString d "regex") ++ ", " ++
      goQuote (getMapString d "options") ++ ")")
  | _ => none
termination_by (sizeOf val, 0)
decreasing_by
  all_goals simp_wf
  all_goals
    first
    | omega
    | (apply Prod.Lex.right; omega)
    | (apply getMapValue_sizeOf_lt; omega)
    | (apply Prod.Lex.left
       first
       | omega
       | (apply getMapValue_sizeOf_lt; omega))

/-- The `$replaceOne`/`$replaceAll` case arm. -/
def exprReplaceFragment (op : String) (val : Value) : Option String :=
  match val with
  | .doc d =>
    some ("gmqb." ++ (if op = "$replaceAll" then "ExprReplaceAll" else "ExprReplaceOne") ++
      "(" ++ formatExpressionValue (getMapValue d "input") ++ ", " ++
      formatExpressionValue (getMapValue d "find") ++ ", " ++
      formatExpressionValue (getMapValue d "replacement") ++ ")")
  | _ => none
termination_by (sizeOf val, 0)
decreasing_by
  all_goals simp_wf
  all_goals
    first
    | omega
    | (apply Prod.Lex.right; omega)
    | (apply getMapValue_sizeOf_lt; omega)
    | (apply Prod.Lex.left
       first
       | omega
       | (apply getMapValue_sizeOf_lt; omega))

/-- The `$trim`/`$ltrim`/`$rtrim` case arm. -/
def exprTrimFragment (op : String) (val : Value) : Option String :=
  match val with
  | .doc d =>
    some ("gmqb." ++
      (if op = "$ltrim" then "ExprLTrim"
       else if op = "$rtrim" then "ExprRTrim"
       else "ExprTrim") ++
      "(" ++ formatExpressionValue (getMapValue d "input") ++ ", " ++
      formatExpressionValue (getMapValue d "chars") ++ ")")
  | _ => none
termination_by (sizeOf val, 0)
decreasing_by
  all_goals simp_wf
  all_goals
    first
    | omega
    | (apply Prod.Lex.right; omega)
    | (apply getMapValue_sizeOf_lt; omega)
    | (apply Prod.Lex.left
       first
       | omega
       | (apply getMapValue_sizeOf_lt; omega))

/-- The `$cond` case arm: named-field form, plus the legacy 3-element-array
form. -/
def exprCondFragment (val : Value) : Option String :=
  match val with
  | .doc d =>
    some ("gmqb.ExprCond(" ++ formatExpressionValue (getMapValue d "if") ++ ", " ++
      formatExpressionValue (getMapValue d "then") ++ ", " ++
      formatExpressionValue (getMapValue d "else") ++ ")")
  | .arr [a, b, c] =>
    some ("gmqb.ExprCond(" ++ formatExpressionValue a ++ ", " ++
      formatExpressionValue b ++ ", " ++ formatExpressionValue c ++ ")")
  | _ => none
termination_by (sizeOf val, 0)
decreasing_by
  all_goals simp_wf
  all_goals
    first
    | omega
    | (apply Prod.Lex.right; omega)
    | (apply getMapValue_sizeOf_lt; omega)
    | (apply Prod.Lex.left
       first
       | omega
       | (apply getMapValue_sizeOf_lt; omega))

/-- The `$switch` case arm: extracts `branches`/`default`. -/
def exprSwitchFragment (val : Value) : Option String :=
  match val with
  | .doc d =>
    some ("gmqb.ExprSwitch(" ++ formatExpressionValue (getMapValue d "branches") ++ ", " ++
      formatExpressionValue (getMapValue d "default") ++ ")")
  | _ => none
termination_by (sizeOf val, 0)
decreasing_by
  all_goals simp_wf
  all_goals
    first
    | omega
    | (apply Prod.Lex.right; omega)
    | (apply getMapValue_sizeOf_lt; omega)
    | (apply Prod.Lex.left
       first
       | omega
       | (apply getMapValue_sizeOf_lt; omega))

/-- Source `formatExpressionValue` (translate.go): attempts expression
translation when the value is a single-key `$`-prefixed document, falling
back to `formatValue` otherwise (or when translation errs, which it never
does on a one-field document). -/
def formatExpressionValue (val : Value) : String :=
  match val with
  | .doc [(k, v)] =>
    if goHasPfx k "$" then
      match translateExpression [(k, v)] with
      | .ok expr => expr
      | .error _ => formatValue (.doc [(k, v)])
    else formatValue (.doc [(k, v)])
  | w => formatValue w
termination_by (sizeOf val, 0)
decreasing_by
  all_goals simp_wf
  all_goals
    first
    | omega
    | (apply Prod.Lex.right; omega)
    | (apply getMapValue_sizeOf_lt; omega)
    | (apply Prod.Lex.left
       first
       | omega
       | (apply getMapValue_sizeOf_lt; omega))

/-- The element loop of `translateExpression`'s variadic case. -/
def formatExprList : List Value → List String
  | [] => []
  | v :: rest => formatExpressionValue v :: formatExprList rest
termination_by l => (sizeOf l, 0)
decreasing_by
  all_goals simp_wf
  all_goals
    first
    | omega
    | (apply Prod.Lex.right; omega)
    | (apply getMapValue_sizeOf_lt; omega)
    | (apply Prod.Lex.left
       first
       | omega
       | (apply getMapValue_sizeOf_lt; omega))

end

/-! Filter-document translator (translate.go). -/

/-- The equality fallback fragment `gmqb.Eq(%q, %s)` of `translateElement`. -/
def eqFragment (key : String) (val : Value) : String :=
  "gmqb.Eq(" ++ goQuote key ++ ", " ++ formatValue val ++ ")"

/-- The implicit-AND wrap `gmqb.And(\n%s,\n)` shared by `translateDoc` and
`translateElement`. -/
def andWrap (parts : List String) : String :=
  "gmqb.And(\n" ++ String.intercalate ",\n" parts ++ ",\n)"

/-- Both `translateDoc` and `translateElement` return a single part
unwrapped and wrap several parts in the implicit `gmqb.And`. -/
def unwrapOrAnd : List String → String
  | [p] => p
  | parts => andWrap parts

/-- The "operator document" test of `translateElement`: a non-empty document
whose every key begins with `$`. -/
def isOpDoc (subDoc : List (String × Value)) : Bool :=
  decide (0 < subDoc.length) && subDoc.all (fun e => goHasPfx e.1 "$")

/-- The non-recursive arms of the source `translateOperator` switch (all
operators except `$elemMatch`, which recurses through `translateDoc` and is
handled in `translateOperator` itself).  `$in`/`$nin`/`$all` format via
`formatValues`, `$mod` demands a 2-element array, and every operator
outside the closed set is rejected with an error naming it. -/
def translateScalarOperator (field : String) (op : String) (val : Value) :
    Except String String :=
  if op = "$eq" then .ok ("gmqb.Eq(" ++ goQuote field ++ ", " ++ formatValue val ++ ")")
  else if op = "$ne" then .ok ("gmqb.Ne(" ++ goQuote field ++ ", " ++ formatValue val ++ ")")
  else if op = "$gt" then .ok ("gmqb.Gt(" ++ goQuote field ++ ", " ++ formatValue val ++ ")")
  else if op = "$gte" then .ok ("gmqb.Gte(" ++ goQuote field ++ ", " ++ formatValue val ++ ")")
  else if op = "$lt" then .ok ("gmqb.Lt(" ++ goQuote field ++ ", " ++ formatValue val ++ ")")
  else if op = "$lte" then .ok ("gmqb.Lte(" ++ goQuote field ++ ", " ++ formatValue val ++ ")")
  else if op = "$in" then .ok ("gmqb.In(" ++ goQuote field ++ ", " ++ formatValues val ++ ")")
  else if op = "$nin" then .ok ("gmqb.Nin(" ++ goQuote field ++ ", " ++ formatValues val ++ ")")
  else if op = "$exists" then
    .ok ("gmqb.Exists(" ++ goQuote field ++ ", " ++ formatValue val ++ ")")
  else if op = "$type" then
    .ok ("gmqb.Type(" ++ goQuote field ++ ", " ++ formatValue val ++ ")")
  else if op = "$regex" then
    .ok ("gmqb.Regex(" ++ goQuote field ++ ", " ++ formatValue val ++ ", \"\")")
  else if op = "$mod" then
    match val with
    | .arr [a, b] =>
      .ok ("gmqb.Mod(" ++ goQuote field ++ ", " ++ formatValue a ++ ", " ++
        formatValue b ++ ")")
    | _ => .error "invalid $mod value"
  else if op = "$size" then
    .ok ("gmqb.Size(" ++ goQuote field ++ ", " ++ formatValue val ++ ")")
  else if op = "$all" then
    .ok ("gmqb.All(" ++ goQuote field ++ ", " ++ formatValues val ++ ")")
  else .error ("unsupported operator: " ++ op)

mutual

/-- Source `translateDoc`: an empty document is the empty fragment; otherwise
every element is translated in order, a single part is returned unwrapped,
and several parts are wrapped in the implicit `gmqb.And`. -/
def translateDoc (doc : List (String × Value)) : Except String String :=
  match doc with
  | [] => .ok ""
  | e0 :: rest =>
    match translateDocParts (e0 :: rest) with
    | .error e => .error e
    | .ok parts => .ok (unwrapOrAnd parts)
termination_by (sizeOf doc, 2)

/-- The element loop of `translateDoc`, with Go's early return on the first
error. -/
def translateDocParts : List (String × Value) → Except String (List String)
  | [] => .ok []
  | (k, v) :: rest =>
    match translateElement k v with
    | .error e => .error e
    | .ok p =>
      match translateDocParts rest with
      | .error e => .error e
      | .ok ps => .ok (p :: ps)
termination_by doc => (sizeOf doc, 1)

/-- Source `translateElement`: logical keys dispatch to `translateLogicalOp`;
a non-empty document value whose every key begins with `$` dispatches each
(operator, value) pair to `translateOperator`, wrapping multiple parts in
an explicit `gmqb.And`; anything else becomes a `gmqb.Eq` fragment. -/
def translateElement (key : String) (val : Value) : Except String String :=
  if key = "$and" then translateLogicalOp "gmqb.And" val
  else if key = "$or" then translateLogicalOp "gmqb.Or" val
  else if key = "$nor" then translateLogicalOp "gmqb.Nor" val
  else
    match val with
    | .doc subDoc =>
      if isOpDoc subDoc then
        match translateOpParts key subDoc with
        | .error e => .error e
        | .ok parts => .ok (unwrapOrAnd parts)
      else .ok (eqFragment key (.doc subDoc))
    | w => .ok (eqFragment key w)
termination_by (sizeOf val, 4)

/-- The operator loop of `translateElement`, with Go's early return on the
first error. -/
def translateOpParts (field : String) : List (String × Value) → Except String (List String)
  | [] => .ok []
  | (opKey, opVal) :: rest =>
    match translateOperator field opKey opVal with
    | .error e => .error e
    | .ok p =>
      match translateOpParts field rest with
      | .error e => .error e
      | .ok ps => .ok (p :: ps)
termination_by doc => (sizeOf doc, 9)

/-- Source `translateLogicalOp`: `$and`/`$or`/`$nor` demand an array of
documents, each translated by `translateDoc` and joined in array order. -/
def translateLogicalOp (funcName : String) (val : Value) : Except String String :=
  match val with
  | .arr items =>
    match translateLogicalParts items with
    | .error e => .error e
    | .ok parts => .ok (funcName ++ "(\n" ++ String.intercalate ",\n" parts ++ ",\n)")
  | w => .error ("expected array for logical operator, got " ++ goTypeName w)
termination_by (sizeOf val, 3)

/-- The element loop of `translateLogicalOp`: non-document elements fail. -/
def translateLogicalParts : List Value → Except String (List String)
  | [] => .ok []
  | item :: rest =>
    match item with
    | .doc d =>
      match translateDoc d with
      | .error e => .error e
      | .ok p =>
        match translateLogicalParts rest with
        | .error e => .error e
        | .ok ps => .ok (p :: ps)
    | w => .error ("expected document in logical operator array, got " ++ goTypeName w)
termination_by items => (sizeOf items, 9)

/-- Source `translateOperator` (the field-level Operator Dispatcher):
`$elemMatch` demands a document and recurses through `translateDoc`; every
other operator is handled by the non-recursive `translateScalarOperator`
(the switch arms are mutually exclusive, so the reordering is faithful). -/
def translateOperator (field : String) (op : String) (val : Value) : Except String String :=
  if op = "$elemMatch" then
    match val with
    | .doc subDoc =>
      match translateDoc subDoc with
      | .error e => .error e
      | .ok part => .ok ("gmqb.ElemMatch(" ++ goQuote field ++ ", " ++ part ++ ")")
    | _ => .error "invalid $elemMatch value"
  else translateScalarOperator field op val
termination_by (sizeOf val, 0)

end

/-! Pipeline translator (translate.go). -/

/-- Go's `%q` verb as applied by the `$count` stage to an arbitrary decoded
value: strings are quoted; on any non-string operand the verb produces a
malformed-verb rendering, abstracted here by its `%!q(…)` prefix (no claim
depends on the stage's non-string behaviour). -/
def goPercentQ : Value → String
  | .str s => goQuote s
  | v => "%!q(" ++ goTypeName v ++ ")"

/-- Source `translatePipelineStage`: demands exactly one key (the stage
operator), then dispatches over the closed stage set, falling back to a
`RawStage` emission for unrecognized stages. -/
def translatePipelineStage (doc : List (String × Value)) : Except String String :=
  match doc with
  | [] => .error "empty pipeline stage"
  | [(stageOp, stageVal)] =>
    if stageOp = "$match" then
      match stageVal with
      | .doc filterDoc =>
        match translateDoc filterDoc with
        | .error e => .error e
        | .ok part => .ok ("Match(" ++ part ++ ")")
      | w => .error ("expected document $match, got " ++ goTypeName w)
    else if stageOp = "$addFields" ∨ stageOp = "$set" then
      let bMethod := if stageOp = "$set" then "SetFields" else "AddFields"
      match stageVal with
      | .doc d =>
        let parts := d.map
          (fun e => "gmqb.AddField(" ++ goQuote e.1 ++ ", " ++ formatExpressionValue e.2 ++ ")")
        .ok (bMethod ++ "(gmqb.AddFieldsSpec(\n\t" ++
          String.intercalate ",\n\t" parts ++ ",\n))")
      | w => .error ("expected document for " ++ stageOp ++ ", got " ++ goTypeName w)
    else if stageOp = "$project" ∨ stageOp = "$sort" then
      let bMethod := if stageOp = "$sort" then "Sort" else "Project"
      match stageVal with
      | .doc d =>
        let parts := d.map
          (fun e => "bson.E\x7b" ++ goQuote e.1 ++ ", " ++ formatExpressionValue e.2 ++ "\x7d")
        .ok (bMethod ++ "(bson.D\x7b\n\t" ++ String.intercalate ",\n\t" parts ++ ",\n\x7d)")
      | w => .error ("expected document for " ++ stageOp ++ ", got " ++ goTypeName w)
    else if stageOp = "$group" then
      match stageVal with
      | .doc d =>
        let idVal := formatExpressionValue (getMapValue d "_id")
        let parts := (d.filter (fun e => e.1 ≠ "_id")).map
          (fun e => "gmqb.GroupAcc(" ++ goQuote e.1 ++ ", " ++ formatExpressionValue e.2 ++ ")")
        if parts.isEmpty then .ok ("Group(gmqb.GroupSpec(" ++ idVal ++ "))")
        else .ok ("Group(gmqb.GroupSpec(" ++ idVal ++ ",\n\t" ++
          String.intercalate ",\n\t" parts ++ ",\n))")
      | w => .error ("expected document for " ++ stageOp ++ ", got " ++ goTypeName w)
    else if stageOp = "$limit" then .ok ("Limit(" ++ toString (getInt64 stageVal) ++ ")")
    else if stageOp = "$skip" then .ok ("Skip(" ++ toString (getInt64 stageVal) ++ ")")
    else if stageOp = "$count" then .ok ("Count(" ++ goPercentQ stageVal ++ ")")
    else if stageOp = "$unwind" then
      match stageVal with
      | .str s => .ok ("Unwind(" ++ goQuote s ++ ")")
      | .doc d => .ok ("RawStage(\"$unwind\", " ++ formatValue (.doc d) ++ ")")
      | w => .ok ("RawStage(" ++ goQuote stageOp ++ ", " ++ formatValue w ++ ")")
    else if stageOp = "$replaceRoot" then
      .ok ("ReplaceRoot(" ++ formatValue stageVal ++ ")")
    else if stageOp = "$replaceWith" then
      .ok ("ReplaceWith(" ++ formatValue stageVal ++ ")")
    else if stageOp = "$out" then
      match stageVal with
      | .str s => .ok ("Out(" ++ goQuote s ++ ")")
      | .doc d =>
        .ok ("OutToDb(" ++ goQuote (getMapString d "db") ++ ", " ++
          goQuote (getMapString d "coll") ++ ")")
      | w => .ok ("RawStage(\"$out\", " ++ formatValue w ++ ")")
    else .ok ("RawStage(" ++ goQuote stageOp ++ ", " ++ formatValue stageVal ++ ")")
  | _ => .error ("pipeline stage must have exactly one top-level operator, got " ++
      toString doc.length)

/-- The stage loop of `translatePipeline`: every element must be a document,
and the first error aborts. -/
def translatePipelineParts : List Value → Except String (List String)
  | [] => .ok []
  | item :: rest =>
    match item with
    | .doc d =>
      match translatePipelineStage d with
      | .error e => .error e
      | .ok s =>
        match translatePipelineParts rest with
        | .error e => .error e
        | .ok ss => .ok (s :: ss)
    | w => .error ("expected document as pipeline stage, got " ++ goTypeName w)

/-- Source `translatePipeline`: the empty pipeline is the bare constructor;
otherwise the stage fragments are chained one per line. -/
def translatePipeline (arr : List Value) : Except String String :=
  match arr with
  | [] => .ok "gmqb.NewPipeline()"
  | arrNE =>
    match translatePipelineParts arrNE with
    | .error e => .error e
    | .ok parts => .ok ("gmqb.NewPipeline().\n" ++ String.intercalate ".\n" parts)

/-! Auxiliary predicates and the spec-side comparison definitions used by the
claims. -/

/-- Whether a decoded value is a 2-element array (the shape demanded by the
field-level `$mod` and by the binary expression operators). -/
def isArr2 : Value → Bool
  | .arr [_, _] => true
  | _ => false

/-- Whether a decoded value is one of the three numeric kinds recognized by
`getInt64`. -/
def isNumericValue : Value → Bool
  | .int32 _ => true
  | .int64 _ => true
  | .float64 _ => true
  | _ => false

/-- The closed field-level operator set of the source `translateOperator`
switch. -/
def supportedFilterOps : List String :=
  ["$eq", "$ne", "$gt", "$gte", "$lt", "$lte", "$in", "$nin", "$exists", "$type",
   "$regex", "$mod", "$size", "$all", "$elemMatch"]

/-- Necessary condition on the first character of a syntactically valid Go
expression: of all tokens that may begin a Go expression, only the receive
operator `<-` starts with the character `<` (the relational and shift
operators are infix, and generic argument lists follow an identifier), so a
fragment that starts with `<` not followed by `-` cannot parse as a Go
expression.  The empty string is not an expression either. -/
def goExprStartOk (s : String) : Bool :=
  match s.data with
  | [] => false
  | c :: rest => if c = '<' then decide (rest.head? = some '-') else true

/-- Modelled from the spec (§4.2): "each operator on the same field yields
its own top-level fragment (operators on one field are *not* nested under an
explicit AND — they are emitted as independent siblings …)".  Differs from
the source `translateElement` only in handing the per-operator fragments
back unwrapped, to be flattened into the document's top-level fragment
list; all sub-translations reuse the source functions. -/
def specElementFragments (key : String) (val : Value) : Except String (List String) :=
  if key = "$and" then (translateLogicalOp "gmqb.And" val).map (fun s => [s])
  else if key = "$or" then (translateLogicalOp "gmqb.Or" val).map (fun s => [s])
  else if key = "$nor" then (translateLogicalOp "gmqb.Nor" val).map (fun s => [s])
  else
    match val with
    | .doc subDoc =>
      if isOpDoc subDoc then translateOpParts key subDoc
      else .ok [eqFragment key (.doc subDoc)]
    | w => .ok [eqFragment key w]

/-- The fragment collection of `specTranslateDocSiblings`: concatenation of
every field's fragments, in key order. -/
def specDocFragments : List (String × Value) → Except String (List String)
  | [] => .ok []
  | (k, v) :: rest =>
    match specElementFragments k v with
    | .error e => .error e
    | .ok fs =>
      match specDocFragments rest with
      | .error e => .error e
      | .ok gs => .ok (fs ++ gs)

/-- Modelled from the spec (§4.2): document translation under the claimed
sibling rule — all per-operator fragments are siblings at the document
level, and only the uniform document-level implicit-AND wrap may group them:
zero fragments give the empty fragment, one is returned unwrapped, several
are wrapped in the single implicit top-level AND. -/
def specTranslateDocSiblings (doc : List (String × Value)) : Except String String :=
  match specDocFragments doc with
  | .error e => .error e
  | .ok [] => .ok ""
  | .ok [f] => .ok f
  | .ok fs => .ok (andWrap fs)

/-! Helper lemmas. -/

/-- On success, `translateDocParts` returns exactly one fragment per document
element, in the original key order: the i-th fragment is the translation of
the i-th (key, value) pair. -/
theorem translateDocParts_map (d : List (String × Value)) (parts : List String)
    (h : translateDocParts d = .ok parts) :
    parts.map Except.ok = d.map (fun e => translateElement e.1 e.2) := by
  induction d generalizing parts with
  | nil =>
    simp only [translateDocParts] at h
    cases h
    simp
  | cons e rest ih =>
    obtain ⟨k, v⟩ := e
    simp only [translateDocParts] at h
    cases he : translateElement k v with
    | error msg => rw [he] at h; cases h
    | ok p =>
      rw [he] at h
      cases hr : translateDocParts rest with
      | error msg => rw [hr] at h; cases h
      | ok ps =>
        rw [hr] at h
        cases h
        simp only [List.map_cons]
        rw [ih ps hr, he]

/-- On success, `translateDocParts` preserves length. -/
theorem translateDocParts_length (d : List (String × Value)) (parts : List String)
    (h : translateDocParts d = .ok parts) : parts.length = d.length := by
  have hm := translateDocParts_map d parts h
  have := congrArg List.length hm
  simpa using this

/-- On success, `translateOpParts` returns exactly one fragment per operator
entry, in entry order. -/
theorem translateOpParts_map (field : String) (d : List (String × Value))
    (parts : List String) (h : translateOpParts field d = .ok parts) :
    parts.map Except.ok = d.map (fun e => translateOperator field e.1 e.2) := by
  induction d generalizing parts with
  | nil =>
    simp only [translateOpParts] at h
    cases h
    simp
  | cons e rest ih =>
    obtain ⟨k, v⟩ := e
    simp only [translateOpParts] at h
    cases he : translateOperator field k v with
    | error msg => rw [he] at h; cases h
    | ok p =>
      rw [he] at h
      cases hr : translateOpParts field rest with
      | error msg => rw [hr] at h; cases h
      | ok ps =>
        rw [hr] at h
        cases h
        simp only [List.map_cons]
        rw [ih ps hr, he]

/-- On success, `translateOpParts` preserves length. -/
theorem translateOpParts_length (field : String) (d : List (String × Value))
    (parts : List String) (h : translateOpParts field d = .ok parts) :
    parts.length = d.length := by
  have hm := translateOpParts_map field d parts h
  have := congrArg List.length hm
  simpa using this

/-! Claim theorems. -/

/-- C2: `translateDoc` maps the empty document to the empty fragment,
returns the fragment of a document producing exactly one top-level fragment
unwrapped, and wraps the fragments of a document producing more than one in
a single implicit `gmqb.And`, in the original key order (each document
element produces exactly one fragment, in element order, by
`translateDocParts_map`). -/
theorem translateDoc_implicit_and :
    (translateDoc [] = .ok "") ∧
    (∀ k v p, translateElement k v = .ok p → translateDoc [(k, v)] = .ok p) ∧
    (∀ doc parts, 2 ≤ doc.length → translateDocParts doc = .ok parts →
      translateDoc doc = .ok (andWrap parts)) := by
  refine ⟨by simp [translateDoc], ?_, ?_⟩
  · intro k v p h
    simp only [translateDoc, translateDocParts, h]
    simp [unwrapOrAnd]
  · intro doc parts hlen h
    rcases doc with _ | ⟨e0, rest⟩
    · simp at hlen
    · have hl := translateDocParts_length _ _ h
      simp only [translateDoc, h]
      rcases parts with _ | ⟨p1, _ | ⟨p2, ps⟩⟩
      · simp at hl
      · simp only [List.length_cons, List.length_singleton, List.length_nil] at hl hlen
        omega
      · simp [unwrapOrAnd]

/-- Witness for C2 at the repository's own two-field example
`\x7b"name": "Alice", "age": 30\x7d`. -/
theorem translateDoc_implicit_and_witness :
    translateDoc [("name", .str "Alice"), ("age", .int32 30)] =
      .ok "gmqb.And(\ngmqb.Eq(\"name\", \"Alice\"),\ngmqb.Eq(\"age\", 30),\n)" := by
  have h := translateDoc_implicit_and.2.2
    [("name", .str "Alice"), ("age", .int32 30)]
    ["gmqb.Eq(\"name\", \"Alice\")", "gmqb.Eq(\"age\", 30)"]
    (by simp)
    (by simp [translateDocParts, translateElement, eqFragment, formatValue, goQuote,
          goEscapeChar] <;> decide)
  rw [h]
  simp [andWrap]
  rfl

/-- C5: the field-level `$mod` with any value other than a 2-element array
fails with the `invalid $mod value` translation error (no fragment, partial
or otherwise, is produced), and with a 2-element array `[a, b]` it emits the
two elements as two positional arguments of `gmqb.Mod`. -/
theorem mod_arity_enforced :
    (∀ field val, isArr2 val = false →
      translateOperator field "$mod" val = .error "invalid $mod value") ∧
    (∀ field a b, translateOperator field "$mod" (.arr [a, b]) =
      .ok ("gmqb.Mod(" ++ goQuote field ++ ", " ++ formatValue a ++ ", " ++
        formatValue b ++ ")")) := by
  constructor
  · intro field val h
    cases val with
    | arr l =>
      match l, h with
      | [], _ => simp [translateOperator, translateScalarOperator]
      | [a], _ => simp [translateOperator, translateScalarOperator]
      | a :: b :: c :: t, _ => simp [translateOperator, translateScalarOperator]
      | [a, b], h => simp [isArr2] at h
    | null => simp [translateOperator, translateScalarOperator]
    | bool b => simp [translateOperator, translateScalarOperator]
    | int32 n => simp [translateOperator, translateScalarOperator]
    | int64 n => simp [translateOperator, translateScalarOperator]
    | float64 f => simp [translateOperator, translateScalarOperator]
    | str s => simp [translateOperator, translateScalarOperator]
    | doc d => simp [translateOperator, translateScalarOperator]
    | objectID hex => simp [translateOperator, translateScalarOperator]
    | regex p o => simp [translateOperator, translateScalarOperator]
    | dateTime m => simp [translateOperator, translateScalarOperator]
  · intro field a b
    simp [translateOperator, translateScalarOperator]

/-- Witness for C5: `\x7b"$mod": [4]\x7d` (wrong arity) fails, and
`\x7b"$mod": [4, 0]\x7d` emits two positional arguments. -/
theorem mod_arity_enforced_witness :
    translateOperator "qty" "$mod" (.arr [.int32 4]) = .error "invalid $mod value" ∧
    translateOperator "qty" "$mod" (.arr [.int32 4, .int32 0]) =
      .ok "gmqb.Mod(\"qty\", 4, 0)" := by
  constructor
  · exact mod_arity_enforced.1 "qty" (.arr [.int32 4]) rfl
  · have h := mod_arity_enforced.2 "qty" (.int32 4) (.int32 0)
    rw [h]
    simp [formatValue, goQuote, goEscapeChar]
    rfl

/-- C6: every field-level operator outside the closed 15-operator set is
rejected by the dispatcher with an error naming the offending operator; it
never degrades to a fallback fragment. -/
theorem unsupported_operator_rejected (field : String) (op : String) (val : Value)
    (h : op ∉ supportedFilterOps) :
    translateOperator field op val = .error ("unsupported operator: " ++ op) := by
  simp only [supportedFilterOps, List.mem_cons, List.not_mem_nil, or_false, not_or] at h
  obtain ⟨h1, h2, h3, h4, h5, h6, h7, h8, h9, h10, h11, h12, h13, h14, h15⟩ := h
  rw [translateOperator.eq_def]
  simp [translateScalarOperator,
    h1, h2, h3, h4, h5, h6, h7, h8, h9, h10, h11, h12, h13, h14, h15]

/-- Witness for C6 at the unsupported operator `$where`. -/
theorem unsupported_operator_rejected_witness :
    translateOperator "x" "$where" .null = .error "unsupported operator: $where" := by
  have h := unsupported_operator_rejected "x" "$where" .null (by decide)
  rw [h]
  rfl

/-- C7: a pipeline stage document with zero keys or more than one key fails
with a translation error (naming the key count in the latter case); only a
single-key stage is dispatched. -/
theorem pipeline_stage_single_key :
    (translatePipelineStage [] = .error "empty pipeline stage") ∧
    (∀ (e1 e2 : String × Value) (rest : List (String × Value)),
      translatePipelineStage (e1 :: e2 :: rest) =
        .error ("pipeline stage must have exactly one top-level operator, got " ++
          toString (e1 :: e2 :: rest).length)) := by
  constructor
  · simp [translatePipelineStage]
  · intro e1 e2 rest
    obtain ⟨k1, v1⟩ := e1
    obtain ⟨k2, v2⟩ := e2
    simp [translatePipelineStage]

/-- Witness for C7 at a two-key stage document and the empty stage. -/
theorem pipeline_stage_single_key_witness :
    translatePipelineStage [("$match", .doc []), ("$limit", .int32 1)] =
      .error "pipeline stage must have exactly one top-level operator, got 2" ∧
    translatePipelineStage [] = .error "empty pipeline stage" := by
  constructor
  · have h := pipeline_stage_single_key.2 ("$match", .doc []) ("$limit", .int32 1) []
    rw [h]
    rfl
  · exact pipeline_stage_single_key.1

/-- C9: a `$limit` or `$skip` stage whose value is not one of
int32/int64/float64 does not fail: `getInt64` silently coerces it to `0`
and the stage is emitted as `Limit(0)` / `Skip(0)` with no error. -/
theorem limit_skip_nonnumeric_zero (v : Value) (h : isNumericValue v = false) :
    translatePipelineStage [("$limit", v)] = .ok "Limit(0)" ∧
    translatePipelineStage [("$skip", v)] = .ok "Skip(0)" := by
  have hz : getInt64 v = 0 := by
    cases v with
    | int32 n => simp [isNumericValue] at h
    | int64 n => simp [isNumericValue] at h
    | float64 f => simp [isNumericValue] at h
    | null => simp [getInt64]
    | bool b => simp [getInt64]
    | str s => simp [getInt64]
    | arr l => simp [getInt64]
    | doc d => simp [getInt64]
    | objectID hex => simp [getInt64]
    | regex p o => simp [getInt64]
    | dateTime m => simp [getInt64]
  constructor
  · simp [translatePipelineStage, hz]
    rfl
  · simp [translatePipelineStage, hz]
    rfl

/-- Witness for C9 at the non-numeric values `"ten"` and `true`. -/
theorem limit_skip_nonnumeric_zero_witness :
    translatePipelineStage [("$limit", .str "ten")] = .ok "Limit(0)" ∧
    translatePipelineStage [("$skip", .bool true)] = .ok "Skip(0)" :=
  ⟨(limit_skip_nonnumeric_zero (.str "ten") rfl).1,
   (limit_skip_nonnumeric_zero (.bool true) rfl).2⟩

/-- C1 (counterexample): at the document
`\x7b"a": \x7b"$gte": 1, "$lt": 2\x7d, "b": 3\x7d` the source translator nests the
two operator fragments of field `a` under their own explicit `gmqb.And`
inside the document-level implicit AND, whereas the spec's sibling rule
(`specTranslateDocSiblings`, modelled from the claim's words) emits the
three fragments as siblings under one AND; the two outputs differ. -/
theorem operator_siblings_counterexample :
    translateDoc [("a", .doc [("$gte", .int32 1), ("$lt", .int32 2)]), ("b", .int32 3)] =
      .ok "gmqb.And(\ngmqb.And(\ngmqb.Gte(\"a\", 1),\ngmqb.Lt(\"a\", 2),\n),\ngmqb.Eq(\"b\", 3),\n)" ∧
    specTranslateDocSiblings
        [("a", .doc [("$gte", .int32 1), ("$lt", .int32 2)]), ("b", .int32 3)] =
      .ok "gmqb.And(\ngmqb.Gte(\"a\", 1),\ngmqb.Lt(\"a\", 2),\ngmqb.Eq(\"b\", 3),\n)" ∧
    ("gmqb.And(\ngmqb.And(\ngmqb.Gte(\"a\", 1),\ngmqb.Lt(\"a\", 2),\n),\ngmqb.Eq(\"b\", 3),\n)" : String) ≠
      "gmqb.And(\ngmqb.Gte(\"a\", 1),\ngmqb.Lt(\"a\", 2),\ngmqb.Eq(\"b\", 3),\n)" := by
  refine ⟨?_, ?_, by decide⟩
  · simp +decide [translateDoc, translateDocParts, translateElement, translateOpParts,
      translateOperator, translateScalarOperator, isOpDoc, eqFragment, unwrapOrAnd, andWrap,
      formatValue, goQuote, goEscapeChar] <;> decide
  · simp +decide [specTranslateDocSiblings, specDocFragments, specElementFragments,
      translateOpParts, translateOperator, translateScalarOperator, isOpDoc, eqFragment,
      andWrap, formatValue, goQuote, goEscapeChar] <;> decide

/-- C1 (amended): each operator of a field's operator document yields one
fragment via the dispatcher, but `translateElement` wraps two or more such
fragments in an explicit per-field `gmqb.And` and hands a *single* fragment
up to the document level (a lone operator's fragment is passed through
unwrapped); the document-level implicit-AND rule then treats that wrapped
fragment as one sibling among the other fields' fragments. -/
theorem operator_document_and_wrap :
    (∀ key es p, key ≠ "$and" → key ≠ "$or" → key ≠ "$nor" → isOpDoc es = true →
      translateOpParts key es = .ok [p] →
      translateElement key (.doc es) = .ok p) ∧
    (∀ key es parts, key ≠ "$and" → key ≠ "$or" → key ≠ "$nor" → isOpDoc es = true →
      2 ≤ parts.length → translateOpParts key es = .ok parts →
      translateElement key (.doc es) = .ok (andWrap parts)) := by
  constructor
  · intro key es p h1 h2 h3 hop h
    rw [translateElement.eq_def]
    simp only [if_neg h1, if_neg h2, if_neg h3]
    simp [hop, h, unwrapOrAnd]
  · intro key es parts h1 h2 h3 hop hlen h
    rw [translateElement.eq_def]
    simp only [if_neg h1, if_neg h2, if_neg h3]
    rcases parts with _ | ⟨p1, _ | ⟨p2, ps⟩⟩
    · simp at hlen
    · simp at hlen
    · simp [hop, h, unwrapOrAnd]

/-- Witness for the amended C1 at `\x7b"age": \x7b"$gte": 18, "$lt": 65\x7d\x7d`:
the two operator fragments are wrapped in their own explicit AND. -/
theorem operator_document_and_wrap_witness :
    translateElement "age" (.doc [("$gte", .int32 18), ("$lt", .int32 65)]) =
      .ok "gmqb.And(\ngmqb.Gte(\"age\", 18),\ngmqb.Lt(\"age\", 65),\n)" := by
  have h := operator_document_and_wrap.2 "age" [("$gte", .int32 18), ("$lt", .int32 65)]
    ["gmqb.Gte(\"age\", 18)", "gmqb.Lt(\"age\", 65)"]
    (by decide) (by decide) (by decide) (by decide) (by simp)
    (by simp +decide [translateOpParts, translateOperator, translateScalarOperator,
          formatValue, goQuote, goEscapeChar] <;> decide)
  rw [h]
  simp [andWrap]
  rfl

/-- C4 (counterexample): a non-array `$in` value does not fail — the
dispatcher emits `gmqb.In` with the value formatted as a single literal
argument, so the claimed TranslationError never occurs. -/
theorem list_operator_nonarray_counterexample :
    translateOperator "x" "$in" (.int32 5) = .ok "gmqb.In(\"x\", 5)" := by
  simp [translateOperator, translateScalarOperator, formatValues, formatValue, goQuote,
    goEscapeChar]
  rfl

/-- C4 (amended): for `$in`, `$nin` and `$all` the dispatcher always emits
the corresponding variadic builder call with the value rendered by
`formatValues`: an array value yields each element formatted and
comma-joined, while a non-array value silently falls back to a single
`formatValue` literal argument instead of failing. -/
theorem list_operator_variadic_or_fallback :
    (∀ field op fn val, (op, fn) ∈ [("$in", "In"), ("$nin", "Nin"), ("$all", "All")] →
      translateOperator field op val =
        .ok ("gmqb." ++ fn ++ "(" ++ goQuote field ++ ", " ++ formatValues val ++ ")")) ∧
    (∀ items, formatValues (.arr items) = String.intercalate ", " (formatValueList items)) ∧
    (∀ v, (∀ l, v ≠ .arr l) → formatValues v = formatValue v) := by
  refine ⟨?_, ?_, ?_⟩
  · intro field op fn val hmem
    simp only [List.mem_cons, List.not_mem_nil, or_false, Prod.mk.injEq] at hmem
    rcases hmem with ⟨ho, hf⟩ | ⟨ho, hf⟩ | ⟨ho, hf⟩ <;> subst ho <;> subst hf <;>
      · rw [translateOperator.eq_def]
        simp [translateScalarOperator]
  · intro items
    simp [formatValues]
  · intro v hv
    cases v with
    | arr l => exact absurd rfl (hv l)
    | null => simp [formatValues]
    | bool b => simp [formatValues]
    | int32 n => simp [formatValues]
    | int64 n => simp [formatValues]
    | float64 f => simp [formatValues]
    | str s => simp [formatValues]
    | doc d => simp [formatValues]
    | objectID hex => simp [formatValues]
    | regex p o => simp [formatValues]
    | dateTime m => simp [formatValues]

/-- Witness for the amended C4: an array value is comma-joined and a
non-array value degrades to a single literal argument. -/
theorem list_operator_variadic_or_fallback_witness :
    translateOperator "status" "$in" (.arr [.str "A", .str "B"]) =
      .ok "gmqb.In(\"status\", \"A\", \"B\")" ∧
    translateOperator "tags" "$all" (.str "solo") = .ok "gmqb.All(\"tags\", \"solo\")" := by
  constructor
  · have h := list_operator_variadic_or_fallback.1 "status" "$in" "In"
      (.arr [.str "A", .str "B"]) (by decide)
    rw [h]
    simp [formatValues, formatValueList, formatValue, goQuote, goEscapeChar]
    rfl
  · have h := list_operator_variadic_or_fallback.1 "tags" "$all" "All" (.str "solo")
      (by decide)
    rw [h]
    simp [formatValues, formatValue, goQuote, goEscapeChar]
    rfl

/-- C8 (counterexample): the debug-format fallback of the Value Formatter
renders a decoded JSON null as `<nil>`, which fails the necessary syntactic
condition `goExprStartOk` (no Go expression can begin with `<` unless
followed by `-`), so the fallback is not always syntactically valid and the
final formatting pass can fail. -/
theorem null_fallback_invalid_counterexample :
    formatValue Value.null = "<nil>" ∧ goExprStartOk (formatValue Value.null) = false := by
  have h : formatValue Value.null = "<nil>" := by simp [formatValue]
  exact ⟨h, by rw [h]; decide⟩

/-- C8 (amended): the Value Formatter is total — the debug fallback renders
the `int64`-backed `bson.DateTime` as its decimal digits, which satisfy the
syntactic start condition — but a decoded JSON null renders as `<nil>`,
which cannot begin a Go expression, and that text reaches the generated
output (e.g. through an equality fragment), so the final formatting pass can
fail on a translation containing a null literal. -/
theorem formatValue_fallback_partial_validity :
    (∀ n : Int, formatValue (.dateTime n) = toString n) ∧
    (formatValue .null = "<nil>") ∧
    (goExprStartOk "<nil>" = false) ∧
    (goExprStartOk (formatValue (.dateTime 20231011)) = true) ∧
    (translateElement "x" .null = .ok "gmqb.Eq(\"x\", <nil>)") := by
  refine ⟨?_, by simp [formatValue], by decide, ?_, ?_⟩
  · intro n
    simp [formatValue]
  · have h : formatValue (.dateTime 20231011) = toString (20231011 : Int) := by
      simp [formatValue]
    rw [h]
    rfl
  · simp [translateElement, eqFragment, formatValue, goQuote, goEscapeChar]
    rfl

/-- The binary expression operators belong to no other arity class. -/
theorem binOps_disjoint : ∀ op ∈ binOps, op ∉ unaryOps ∧ op ∉ accOps := by decide

/-- The variadic expression operators belong to no other arity class. -/
theorem varOps_disjoint : ∀ op ∈ varOps, op ∉ unaryOps ∧ op ∉ accOps ∧ op ∉ binOps := by
  decide

/-- Outside the structured operator set, the structured dispatcher yields
`none` (Go's fall-through to the native fallback). -/
theorem exprStructuredFragment_none (op : String) (val : Value)
    (h : op ∉ structuredOps) : exprStructuredFragment op val = none := by
  simp only [structuredOps, List.mem_cons, List.not_mem_nil, or_false, not_or] at h
  obtain ⟨h1, h2, h3, h4, h5, h6, h7, h8, h9, h10, h11, h12, h13, h14⟩ := h
  rw [exprStructuredFragment.eq_def]
  simp [h1, h2, h3, h4, h5, h6, h7, h8, h9, h10, h11, h12, h13, h14]

/-- A malformed binary value falls back to the raw key/value pair. -/
theorem exprBinaryFragment_nonarr (op : String) (val : Value) (h : isArr2 val = false) :
    exprBinaryFragment op val = exprRawPair op (formatValue val) := by
  cases val with
  | arr l =>
    match l, h with
    | [], _ => simp [exprBinaryFragment]
    | [a], _ => simp [exprBinaryFragment]
    | a :: b :: c :: t, _ => simp [exprBinaryFragment]
    | [a, b], h => simp [isArr2] at h
  | null => simp [exprBinaryFragment]
  | bool b => simp [exprBinaryFragment]
  | int32 n => simp [exprBinaryFragment]
  | int64 n => simp [exprBinaryFragment]
  | float64 f => simp [exprBinaryFragment]
  | str s => simp [exprBinaryFragment]
  | doc d => simp [exprBinaryFragment]
  | objectID hex => simp [exprBinaryFragment]
  | regex p o => simp [exprBinaryFragment]
  | dateTime m => simp [exprBinaryFragment]

/-- C3: on any single-key document `translateExpression` returns a fragment
and never an error: in particular a binary fixed-arity operator whose value
is not a 2-element array degrades to the raw key/value literal fallback, and
any operator outside the closed expression-operator set is emitted as a raw
key/value literal pair, so expression-level translation never hard-fails on
a structurally valid input. -/
theorem translateExpression_total_on_single :
    (∀ op val, ∃ s, translateExpression [(op, val)] = .ok s) ∧
    (∀ op val, op ∈ binOps → isArr2 val = false →
      translateExpression [(op, val)] = .ok (exprRawPair op (formatValue val))) ∧
    (∀ op val, op ∉ unaryOps → op ∉ accOps → op ∉ binOps → op ∉ varOps →
      op ∉ structuredOps →
      translateExpression [(op, val)] = .ok (exprRawPair op (formatExpressionValue val))) := by
  refine ⟨?_, ?_, ?_⟩
  · intro op val
    rw [translateExpression.eq_def]
    repeat' split
    all_goals try exact ⟨_, rfl⟩
    all_goals simp_all
  · intro op val hbin harr
    obtain ⟨hu, ha⟩ := binOps_disjoint op hbin
    rw [translateExpression.eq_def]
    simp only [if_neg hu, if_neg ha, if_pos hbin]
    rw [exprBinaryFragment_nonarr op val harr]
  · intro op val h1 h2 h3 h4 h5
    rw [translateExpression.eq_def]
    simp only [if_neg h1, if_neg h2, if_neg h3, if_neg h4,
      exprStructuredFragment_none op val h5]

/-- Witness for C3: the malformed binary `\x7b"$subtract": [4]\x7d` and the
unknown operator `\x7b"$frobnicate": "x"\x7d` both yield raw-literal
fragments, not errors. -/
theorem translateExpression_total_on_single_witness :
    translateExpression [("$subtract", .arr [.int32 4])] =
      .ok "bson.D\x7b\x7b\"$subtract\", bson.A\x7b4\x7d\x7d\x7d" ∧
    translateExpression [("$frobnicate", .str "x")] =
      .ok "bson.D\x7b\x7b\"$frobnicate\", \"x\"\x7d\x7d" := by
  constructor
  · have h := translateExpression_total_on_single.2.1 "$subtract" (.arr [.int32 4])
      (by decide) rfl
    rw [h]
    simp [exprRawPair, formatValue, formatValueList, goQuote, goEscapeChar]
    rfl
  · have h := translateExpression_total_on_single.2.2 "$frobnicate" (.str "x")
      (by decide) (by decide) (by decide) (by decide) (by decide)
    rw [h]
    simp [exprRawPair, formatExpressionValue, formatValue, goQuote, goEscapeChar]
    rfl

/-- C10: a binary fixed-arity expression operator formats its two array
elements with the literal `formatValue` only — a nested single-key
`$`-prefixed document argument is therefore emitted as a raw `bson.D`
literal — whereas unary and variadic operators pass their arguments through
`formatExpressionValue`, which translates a nested single-key `$`-prefixed
document into a nested builder call. -/
theorem binary_expr_literal_args :
    (∀ op a b, op ∈ binOps → translateExpression [(op, .arr [a, b])] =
      .ok ("gmqb." ++ binFuncName op ++ "(" ++ formatValue a ++ ", " ++
        formatValue b ++ ")")) ∧
    (∀ k w, formatValue (.doc [(k, w)]) =
      "bson.D\x7b" ++ ("\x7b" ++ goQuote k ++ ", " ++ formatValue w ++ "\x7d") ++ "\x7d") ∧
    (∀ op val, op ∈ unaryOps →
      translateExpression [(op, val)] =
        .ok ("gmqb." ++ unaryFuncName op ++ "(" ++ formatExpressionValue val ++ ")")) ∧
    (∀ op items, op ∈ varOps →
      translateExpression [(op, .arr items)] =
        .ok ("gmqb." ++ varFuncName op ++ "(" ++
          String.intercalate ", " (formatExprList items) ++ ")")) ∧
    (∀ k v s, goHasPfx k "$" = true → translateExpression [(k, v)] = .ok s →
      formatExpressionValue (.doc [(k, v)]) = s) := by
  refine ⟨?_, ?_, ?_, ?_, ?_⟩
  · intro op a b h
    obtain ⟨hu, ha⟩ := binOps_disjoint op h
    rw [translateExpression.eq_def]
    simp only [if_neg hu, if_neg ha, if_pos h]
    simp [exprBinaryFragment]
  · intro k w
    simp [formatValue, formatValueDoc]
    rfl
  · intro op val h
    rw [translateExpression.eq_def]
    simp only [if_pos h]
  · intro op items h
    obtain ⟨hu, ha, hb⟩ := varOps_disjoint op h
    rw [translateExpression.eq_def]
    simp only [if_neg hu, if_neg ha, if_neg hb, if_pos h]
  · intro k v s hpfx htrans
    rw [formatExpressionValue.eq_def]
    simp only [if_pos hpfx, htrans]

/-- Witness for C10: under `$subtract` the nested `\x7b"$add": …\x7d` argument
is emitted as a raw `bson.D` literal, while under unary `$abs` the same
nested document becomes a nested builder call. -/
theorem binary_expr_literal_args_witness :
    translateExpression
        [("$subtract", .arr [.doc [("$add", .arr [.str "$a", .int32 1])], .int32 2])] =
      .ok "gmqb.ExprSubtract(bson.D\x7b\x7b\"$add\", bson.A\x7b\"$a\", 1\x7d\x7d\x7d, 2)" ∧
    translateExpression [("$abs", .doc [("$add", .arr [.str "$a", .int32 1])])] =
      .ok "gmqb.ExprAbs(gmqb.ExprAdd(\"$a\", 1))" := by
  constructor
  · have h := binary_expr_literal_args.1 "$subtract"
      (.doc [("$add", .arr [.str "$a", .int32 1])]) (.int32 2) (by decide)
    rw [h]
    simp [binFuncName, opTail, formatValue, formatValueDoc, formatValueList, goQuote,
      goEscapeChar]
    rfl
  · have h := binary_expr_literal_args.2.2.1 "$abs"
      (.doc [("$add", .arr [.str "$a", .int32 1])]) (by decide)
    rw [h]
    simp [unaryFuncName, opTail, formatExpressionValue, translateExpression, goHasPfx,
      varFuncName, formatExprList, formatValue, goQuote, goEscapeChar]
    rfl

end Gmqb
